import Mathlib

/-
Verification of the OG image generation script (scripts/generate-og-images.py).

The script is embedded shallowly:

* colors are natural number triples; the hex parser mirrors
  hex_to_rgb, including lstrip of leading hash characters and the
  2-character slices handed to int(_, 16);
* the gradient builder mirrors create_gradient: a fold over the columns
  drawing one vertical line per column, where each channel is
  int(c1 + (c2 - c1) * x / width).  The arithmetic is modelled exactly
  over the rationals; int() truncation toward zero coincides with the
  floor on these values, which are provably nonnegative;
* an Image is a pair of dimensions plus a total pixel function;
* PIL ImageDraw on an image without an explicit RGBA draw mode writes
  ink values directly, without alpha blending, and the final
  convert to RGB drops the alpha plane; both facts are reflected in the
  model: decorative dots, court lines and corner accents write opaque
  white into the pixel buffer;
* Image.alpha_composite of a uniform (0,0,0,60) layer over an opaque
  image multiplies every channel by (255-60)/255 with rounding;
* text rendering depends on the loaded fonts and the PIL rasterizer, so
  it is an abstract parameter (TextRenderer) of the pipeline;
* the order of the drawing calls in create_og_image is captured as a
  list of steps folded over the image, so that ordering claims are
  statements about that list.
-/

namespace OgImages

/-- Color as an RGB triple of naturals (each channel a byte in the source). -/
abbrev Rgb : Type := ℕ × ℕ × ℕ

/-- Each channel of a color fits in a byte (24-bit RGB). -/
def inRange (c : Rgb) : Prop := c.1 ≤ 255 ∧ c.2.1 ≤ 255 ∧ c.2.2 ≤ 255

instance (c : Rgb) : Decidable (inRange c) := by
  unfold inRange; infer_instance

/-- Canvas: fixed dimensions plus a total pixel function. -/
structure Image where
  width : ℕ
  height : ℕ
  pix : ℕ → ℕ → Rgb

/-- Image.new with default black fill. -/
def blankImage (w h : ℕ) : Image := ⟨w, h, fun _ _ => (0, 0, 0)⟩

/-- Value of a single hex digit, as accepted by int(_, 16):
digits 0-9, lowercase a-f and uppercase A-F. -/
def hexVal (c : Char) : Option ℕ :=
  if 48 ≤ c.toNat ∧ c.toNat ≤ 57 then some (c.toNat - 48)
  else if 97 ≤ c.toNat ∧ c.toNat ≤ 102 then some (c.toNat - 87)
  else if 65 ≤ c.toNat ∧ c.toNat ≤ 70 then some (c.toNat - 55)
  else none

/-- Python int(s, 16) on the 1- or 2-character slices produced by
hex_to_rgb, restricted to hex digits (the only inputs the claims range
over; the extra leniency of int() toward signs and whitespace is outside
every claim). An empty slice raises ValueError, hence none. -/
def parseHex2 : List Char → Option ℕ
  | [c] => hexVal c
  | [c, d] =>
    match hexVal c, hexVal d with
    | some u, some v => some (16 * u + v)
    | _, _ => none
  | _ => none

/-- The slice s[i:i+2] of Python on a list of characters. -/
def slice2 (cs : List Char) (i : ℕ) : List Char := (cs.drop i).take 2

/-- hex_to_rgb: strip every leading hash, then parse the three
2-character slices at offsets 0, 2 and 4. -/
def hex_to_rgb (s : String) : Option Rgb :=
  let t := s.data.dropWhile (· == '#')
  match parseHex2 (slice2 t 0), parseHex2 (slice2 t 2), parseHex2 (slice2 t 4) with
  | some r, some g, some b => some (r, g, b)
  | _, _, _ => none

/-- Modelled from the spec: the standard uppercase hex color formatter
producing a hash followed by six hex digits; the source has no such
function, the spec round-trip property composes the parser with it. -/
def hexDigit (d : ℕ) : Char := Char.ofNat (if d < 10 then 48 + d else 55 + d)

/-- Modelled from the spec: two-digit uppercase hex rendering of a byte. -/
def hexByteChars (n : ℕ) : List Char := [hexDigit (n / 16), hexDigit (n % 16)]

/-- Modelled from the spec: toHex r g b formats a color back to a
7-character hash-RRGGBB string. -/
def toHex (r g b : ℕ) : String :=
  ⟨'#' :: (hexByteChars r ++ hexByteChars g ++ hexByteChars b)⟩

/-- The interpolation formula of the source, a + (b - a) * t, over ℚ. -/
def lerpQ (a b : ℕ) (t : ℚ) : ℚ := (a : ℚ) + ((b : ℚ) - (a : ℚ)) * t

/-- One interpolated channel of the horizontal gradient at column x:
int(a + (b - a) * (x / w)) of the source.  The float arithmetic is
modelled exactly and int() truncation toward zero coincides with the
floor, because the value is nonnegative for every column x < w; the
floor of the rational formula is computed as integer floor division
(the bridge to the ℚ formula is gradChannel_eq_floor below). -/
def gradChannel (a b x w : ℕ) : ℕ :=
  ((a : ℤ) + ((b : ℤ) - (a : ℤ)) * (x : ℤ) / (w : ℤ)).toNat

/-- Color of the horizontal gradient at column x. -/
def gradColor (a b : Rgb) (x w : ℕ) : Rgb :=
  (gradChannel a.1 b.1 x w, gradChannel a.2.1 b.2.1 x w, gradChannel a.2.2 b.2.2 x w)

/-- Channelwise color of the diagonal gradient branch at (x, y):
ratio = (x + y) / (width + height). -/
def diagColor (a b : Rgb) (x y w h : ℕ) : Rgb :=
  (gradChannel a.1 b.1 (x + y) (w + h), gradChannel a.2.1 b.2.1 (x + y) (w + h),
   gradChannel a.2.2 b.2.2 (x + y) (w + h))

/-- The integer floor division in gradChannel computes exactly the floor
of the rational interpolation formula of the source. -/
theorem gradChannel_eq_floor (a b x w : ℕ) :
    gradChannel a b x w = (⌊lerpQ a b ((x : ℚ) / (w : ℚ))⌋).toNat := by
  unfold gradChannel lerpQ
  have h1 : ((b : ℚ) - (a : ℚ)) * ((x : ℚ) / (w : ℚ)) =
      ((((b : ℤ) - (a : ℤ)) * (x : ℤ) : ℤ) : ℚ) / ((w : ℕ) : ℚ) := by
    push_cast
    ring
  rw [h1, show (a : ℚ) = (((a : ℕ) : ℤ) : ℚ) by norm_cast, Int.floor_int_add,
    Rat.floor_intCast_div_natCast]

/-- draw.line from (x,0) to (x,height): fills the whole column x. -/
def drawVLine (img : Image) (x : ℕ) (c : Rgb) : Image :=
  ⟨img.width, img.height, fun px py => if px = x then c else img.pix px py⟩

/-- draw.point at (x, y). -/
def setPixel (img : Image) (x y : ℕ) (c : Rgb) : Image :=
  ⟨img.width, img.height, fun px py => if px = x ∧ py = y then c else img.pix px py⟩

/-- Direction argument of create_gradient. -/
inductive Direction
  | horizontal
  | diagonal
  deriving DecidableEq

/-- create_gradient: parse both colors (a malformed color raises in the
source, hence the Option), then either draw one vertical line per column
(horizontal) or set every pixel (diagonal). -/
def create_gradient (width height : ℕ) (color1 color2 : String)
    (dir : Direction) : Option Image :=
  match hex_to_rgb color1, hex_to_rgb color2 with
  | some a, some b =>
    match dir with
    | Direction.horizontal =>
      some ((List.range width).foldl
        (fun im x => drawVLine im x (gradColor a b x width)) (blankImage width height))
    | Direction.diagonal =>
      some ((List.range width).foldl
        (fun im x => (List.range height).foldl
          (fun im2 y => setPixel im2 x y (diagColor a b x y width height)) im)
        (blankImage width height))
  | _, _ => none

/-- Canvas width of the script (WIDTH = 1200). -/
def WIDTH : ℕ := 1200

/-- Canvas height of the script (HEIGHT = 630). -/
def HEIGHT : ℕ := 630

/-- One entry of the FORMATS table. -/
structure FormatSpec where
  filename : String
  title : String
  subtitle : String
  tagline : String
  gradient1 : String
  gradient2 : String
  icon : String
  deriving DecidableEq

/-- The main entry of FORMATS. -/
def mainCfg : FormatSpec :=
  ⟨"og-image.png", "UberPadel", "Tournament Manager",
   "Create & manage padel tournaments instantly", "#2563EB", "#7C3AED", "●"⟩

/-- The americano entry of FORMATS. -/
def americanoCfg : FormatSpec :=
  ⟨"og-image-americano.png", "Americano Padel", "Rotating Partners",
   "Everyone plays with everyone • 5-24 players", "#7C3AED", "#8B5CF6", "◐"⟩

/-- The mexicano entry of FORMATS. -/
def mexicanoCfg : FormatSpec :=
  ⟨"og-image-mexicano.png", "Mexicano Padel", "Dynamic Matchups",
   "Pairings based on standings • Competitive format", "#059669", "#10B981", "◆"⟩

/-- The mix entry of FORMATS. -/
def mixCfg : FormatSpec :=
  ⟨"og-image-mix.png", "Mix Tournament", "20-28 Players",
   "Large group format with rest rotation", "#2563EB", "#3B82F6", "★"⟩

/-- The team entry of FORMATS. -/
def teamCfg : FormatSpec :=
  ⟨"og-image-team.png", "Team League", "Fixed Teams",
   "League format with group stages & knockouts", "#DC2626", "#EF4444", "▲"⟩

/-- The FORMATS table, in the insertion order of the source dictionary
(Python dictionaries preserve insertion order). -/
def FORMATS : List (String × FormatSpec) :=
  [("main", mainCfg), ("americano", americanoCfg), ("mexicano", mexicanoCfg),
   ("mix", mixCfg), ("team", teamCfg)]

/-- Keys of the FORMATS table in iteration order. -/
def formatKeys : List String := FORMATS.map Prod.fst

/-- Center and radius of decorative dot i:
x = (i * 150) % width + 50, y = (i * 80) % height, radius = 3 + (i % 3). -/
def dotSpec (i w h : ℕ) : ℕ × ℕ × ℕ := ((i * 150) % w + 50, (i * 80) % h, 3 + i % 3)

/-- Membership in the disk filled by draw.ellipse on the bounding box
[x-r, y-r, x+r, y+r] (the mathematical disk of radius r; the claims do
not depend on the exact boundary rasterization of PIL). -/
def inDisk (cx cy r px py : ℕ) : Bool :=
  ((px : ℤ) - (cx : ℤ)) ^ 2 + ((py : ℤ) - (cy : ℤ)) ^ 2 ≤ (r : ℤ) ^ 2

/-- Membership in one of the 20 decorative dots. -/
def inDots (w h px py : ℕ) : Bool :=
  (List.range 20).any fun i =>
    inDisk (dotSpec i w h).1 (dotSpec i w h).2.1 (dotSpec i w h).2.2 px py

/-- An axis-aligned thick line segment as passed to draw.line. -/
structure Seg where
  x0 : ℕ
  y0 : ℕ
  x1 : ℕ
  y1 : ℕ
  w : ℕ
  deriving DecidableEq

/-- Pixel rows or columns covered by the thickness w around center c:
the w consecutive values from c - w / 2 (PIL centers the stroke on the
segment; the claims do not depend on the rounding side). -/
def bandCovers (c w p : ℕ) : Bool :=
  (c : ℤ) - (w : ℤ) / 2 ≤ (p : ℤ) ∧ (p : ℤ) < (c : ℤ) - (w : ℤ) / 2 + (w : ℤ)

/-- Pixel coverage of an axis-aligned segment of thickness w; both
endpoints are included, as in draw.line. -/
def segCovers (s : Seg) (px py : ℕ) : Bool :=
  if s.y0 = s.y1 then
    (min s.x0 s.x1 ≤ px && px ≤ max s.x0 s.x1) && bandCovers s.y0 s.w py
  else if s.x0 = s.x1 then
    (min s.y0 s.y1 ≤ py && py ≤ max s.y0 s.y1) && bandCovers s.x0 s.w px
  else
    false

/-- The two centered padel court lines of add_decorative_elements. -/
def courtSegs (w h : ℕ) : List Seg :=
  [⟨100, h / 2, w - 100, h / 2, 2⟩, ⟨w / 2, 100, w / 2, h - 100, 2⟩]

/-- Membership in the decorative overlay (dots or court lines). -/
def inDecor (w h px py : ℕ) : Bool :=
  inDots w h px py || (courtSegs w h).any fun s => segCovers s px py

/-- add_decorative_elements: the dots and court lines are passed RGBA
fills, but the draw object was created for an RGB image, so PIL ignores
the alpha and writes opaque white. -/
def decorate (w h : ℕ) (img : Image) : Image :=
  ⟨img.width, img.height, fun px py =>
    if inDecor w h px py then (255, 255, 255) else img.pix px py⟩

/-- One channel of Image.alpha_composite with the uniform RGBA layer
(0, 0, 0, 60) over an opaque image: the underlying channel scaled by
(255 - 60) / 255 = 195 / 255, rounded to nearest. -/
def darkChannel (c : ℕ) : ℕ := (c * 195 + 127) / 255

/-- The semi-transparent black contrast overlay, composited over the
whole canvas. -/
def darken (img : Image) : Image :=
  ⟨img.width, img.height, fun px py =>
    ((darkChannel (img.pix px py).1, darkChannel (img.pix px py).2.1,
      darkChannel (img.pix px py).2.2) : Rgb)⟩

/-- The eight corner accent segments, in source order:
top left, top right, bottom left, bottom right, one horizontal and one
vertical line each, length 80 and width 4. -/
def accentSegs : List Seg :=
  [⟨0, 0, 80, 0, 4⟩, ⟨0, 0, 0, 80, 4⟩,
   ⟨WIDTH - 80, 0, WIDTH, 0, 4⟩, ⟨WIDTH - 1, 0, WIDTH - 1, 80, 4⟩,
   ⟨0, HEIGHT - 1, 80, HEIGHT - 1, 4⟩, ⟨0, HEIGHT - 80, 0, HEIGHT, 4⟩,
   ⟨WIDTH - 80, HEIGHT - 1, WIDTH, HEIGHT - 1, 4⟩,
   ⟨WIDTH - 1, HEIGHT - 80, WIDTH - 1, HEIGHT, 4⟩]

/-- Membership in the corner accent region. -/
def inAccents (px py : ℕ) : Bool := accentSegs.any fun s => segCovers s px py

/-- The corner accent drawing: the fill (255, 255, 255, 100) is written
into the RGBA buffer without blending (ImageDraw does not composite),
and the final convert to RGB drops the alpha plane, so the accents are
opaque white in the saved image. -/
def drawAccents (img : Image) : Image :=
  ⟨img.width, img.height, fun px py =>
    if inAccents px py then (255, 255, 255) else img.pix px py⟩

/-- The five text elements drawn by create_og_image, in source order. -/
inductive TextSlot
  | icon
  | title
  | subtitle
  | tagline
  | watermark
  deriving DecidableEq

/-- Text rendering depends on the resolved fonts and the PIL rasterizer;
it is an abstract parameter of the pipeline. -/
def TextRenderer : Type := TextSlot → FormatSpec → Image → Image

/-- The drawing stages of create_og_image. -/
inductive DrawStep
  | gradient
  | decorative
  | overlay
  | text (slot : TextSlot)
  | accents
  deriving DecidableEq

/-- Interpretation of one drawing stage on the canvas. -/
def applyStep (tr : TextRenderer) (cfg : FormatSpec) (img : Image) :
    DrawStep → Image
  | DrawStep.gradient =>
    (create_gradient WIDTH HEIGHT cfg.gradient1 cfg.gradient2
      Direction.horizontal).getD (blankImage WIDTH HEIGHT)
  | DrawStep.decorative => decorate WIDTH HEIGHT img
  | DrawStep.overlay => darken img
  | DrawStep.text s => tr s cfg img
  | DrawStep.accents => drawAccents img

/-- The stages of create_og_image in the order of the source:
gradient background (line 138), decorative elements (line 142), contrast
overlay (lines 145-146), the five texts (lines 159-187), corner accents
(lines 189-202). -/
def ogSteps : List DrawStep :=
  [DrawStep.gradient, DrawStep.decorative, DrawStep.overlay,
   DrawStep.text TextSlot.icon, DrawStep.text TextSlot.title,
   DrawStep.text TextSlot.subtitle, DrawStep.text TextSlot.tagline,
   DrawStep.text TextSlot.watermark, DrawStep.accents]

/-- Position of a stage in the stage list of create_og_image. -/
def stepIdx (s : DrawStep) : ℕ := ogSteps.indexOf s

/-- create_og_image: fold the stages over the canvas.  The final
convert to RGB and PNG save only fix the pixel format; the pixel
content of the saved file is the content of this image. -/
def create_og_image (tr : TextRenderer) (cfg : FormatSpec) : Image :=
  ogSteps.foldl (applyStep tr cfg) (blankImage WIDTH HEIGHT)

/-- main, success path: one output per FORMATS entry in table order,
keyed by the configured filename. -/
def mainRun (tr : TextRenderer) : List (String × Image) :=
  FORMATS.map fun kv => (kv.2.filename, create_og_image tr kv.2)

/-- Result of a font load attempt in get_font. -/
inductive Font
  | truetype (path : String) (size : ℕ)
  | builtin
  deriving DecidableEq

/-- The DejaVu candidate path, bold or regular variant per the flag. -/
def dejavuPath (bold : Bool) : String :=
  if bold then "/usr/share/fonts/truetype/dejavu/DejaVuSans-Bold.ttf"
  else "/usr/share/fonts/truetype/dejavu/DejaVuSans.ttf"

/-- The Liberation candidate path, bold or regular variant per the flag. -/
def liberationPath (bold : Bool) : String :=
  if bold then "/usr/share/fonts/truetype/liberation/LiberationSans-Bold.ttf"
  else "/usr/share/fonts/truetype/liberation/LiberationSans-Regular.ttf"

/-- The ordered candidate font paths of get_font: DejaVu then
Liberation. -/
def fontCandidates (bold : Bool) : List String :=
  [dejavuPath bold, liberationPath bold]

/-- The try-loop of get_font over the candidate list: a failing load
(IOError or OSError, the errors a missing file raises) moves on to the
next candidate; env tells which paths load successfully. -/
def tryFonts (env : String → Bool) : List String → ℕ → Font
  | [], _ => Font.builtin
  | p :: ps, size => if env p then Font.truetype p size else tryFonts env ps size

/-- get_font: first loadable candidate, then ImageFont.load_default. -/
def get_font (env : String → Bool) (size : ℕ) (bold : Bool) : Font :=
  tryFonts env (fontCandidates bold) size

/-- The batch loop of main over the format keys, with the attempted keys
recorded; one failing generation (modelled by Except) stops the loop at
that key, since main has no per-item error handling. -/
def batchRun {E A : Type} (render : String → Except E A) :
    List String → List String × Except E (List A)
  | [] => ([], Except.ok [])
  | k :: ks =>
    match render k with
    | Except.error e => ([k], Except.error e)
    | Except.ok p =>
      let r := batchRun render ks
      (k :: r.1,
       match r.2 with
       | Except.ok ps => Except.ok (p :: ps)
       | Except.error e => Except.error e)

/-! ### Lemmas about the hex color parser -/

theorem hexVal_le (c : Char) (v : ℕ) (h : hexVal c = some v) : v ≤ 15 := by
  unfold hexVal at h
  split at h
  · simp only [Option.some.injEq] at h
    omega
  · split at h
    · simp only [Option.some.injEq] at h
      omega
    · split at h
      · simp only [Option.some.injEq] at h
        omega
      · exact absurd h (by simp)

theorem parseHex2_le (cs : List Char) (v : ℕ) (h : parseHex2 cs = some v) :
    v ≤ 255 := by
  unfold parseHex2 at h
  split at h
  · have := hexVal_le _ _ h
    omega
  · rename_i c d
    split at h
    · rename_i u w hu hw
      simp only [Option.some.injEq] at h
      have h1 := hexVal_le _ _ hu
      have h2 := hexVal_le _ _ hw
      omega
    · exact absurd h (by simp)
  · exact absurd h (by simp)

theorem hex_to_rgb_inRange (s : String) (c : Rgb) (h : hex_to_rgb s = some c) :
    inRange c := by
  simp only [hex_to_rgb] at h
  split at h
  · rename_i r g b hr hg hb
    simp only [Option.some.injEq] at h
    subst h
    exact ⟨parseHex2_le _ _ hr, parseHex2_le _ _ hg, parseHex2_le _ _ hb⟩
  · exact absurd h (by simp)

/-- Parsing a string whose content after the leading hash characters
starts with six hex digits: the parser returns the three byte values
(further characters are ignored by the slices, like in the source). -/
theorem hex_to_rgb_parses (s : String) (c1 c2 c3 c4 c5 c6 : Char)
    (rest : List Char) (v1 v2 v3 v4 v5 v6 : ℕ)
    (hdrop : s.data.dropWhile (· == '#') = c1 :: c2 :: c3 :: c4 :: c5 :: c6 :: rest)
    (h1 : hexVal c1 = some v1) (h2 : hexVal c2 = some v2)
    (h3 : hexVal c3 = some v3) (h4 : hexVal c4 = some v4)
    (h5 : hexVal c5 = some v5) (h6 : hexVal c6 = some v6) :
    hex_to_rgb s = some (16 * v1 + v2, 16 * v3 + v4, 16 * v5 + v6) := by
  unfold hex_to_rgb
  rw [hdrop]
  simp only [slice2, List.drop, List.take, parseHex2, h1, h2, h3, h4, h5, h6]

/-! ### Lemmas about the gradient builder -/

theorem foldl_vline_width (f : ℕ → Rgb) (L : List ℕ) (img : Image) :
    (L.foldl (fun im u => drawVLine im u (f u)) img).width = img.width := by
  induction L generalizing img with
  | nil => rfl
  | cons u L ih => simpa [drawVLine] using ih (drawVLine img u (f u))

theorem foldl_vline_height (f : ℕ → Rgb) (L : List ℕ) (img : Image) :
    (L.foldl (fun im u => drawVLine im u (f u)) img).height = img.height := by
  induction L generalizing img with
  | nil => rfl
  | cons u L ih => simpa [drawVLine] using ih (drawVLine img u (f u))

theorem foldl_vline_pix (f : ℕ → Rgb) (L : List ℕ) (img : Image) (x y : ℕ) :
    (L.foldl (fun im u => drawVLine im u (f u)) img).pix x y
      = if x ∈ L then f x else img.pix x y := by
  induction L generalizing img with
  | nil => simp
  | cons u L ih =>
    rw [List.foldl_cons, ih]
    by_cases hxL : x ∈ L
    · simp [hxL]
    · by_cases hxu : x = u
      · subst hxu
        simp [hxL, drawVLine]
      · simp [hxL, hxu, drawVLine]

/-- Shape of the image produced by create_gradient in horizontal mode:
one column of the interpolated color per x below the width, black
elsewhere (untouched by any line), and the requested dimensions. -/
theorem create_gradient_eq (W H : ℕ) (s1 s2 : String) (a b : Rgb)
    (h1 : hex_to_rgb s1 = some a) (h2 : hex_to_rgb s2 = some b) :
    ∃ img, create_gradient W H s1 s2 Direction.horizontal = some img ∧
      img.width = W ∧ img.height = H ∧
      ∀ x y, img.pix x y = if x < W then gradColor a b x W else (0, 0, 0) := by
  refine ⟨_, by unfold create_gradient; rw [h1, h2], ?_, ?_, ?_⟩
  · exact foldl_vline_width _ _ _
  · exact foldl_vline_height _ _ _
  · intro x y
    rw [foldl_vline_pix]
    simp [List.mem_range, blankImage]

/-! ### Arithmetic facts about the interpolation formula -/

theorem lerpQ_convex (a b : ℕ) (t : ℚ) :
    lerpQ a b t = (a : ℚ) * (1 - t) + (b : ℚ) * t := by
  unfold lerpQ
  ring

theorem lerpQ_nonneg (a b : ℕ) (t : ℚ) (h0 : 0 ≤ t) (h1 : t ≤ 1) :
    0 ≤ lerpQ a b t := by
  rw [lerpQ_convex]
  have ha : (0 : ℚ) ≤ (a : ℚ) := Nat.cast_nonneg a
  have hb : (0 : ℚ) ≤ (b : ℚ) := Nat.cast_nonneg b
  nlinarith

theorem lerpQ_le (a b M : ℕ) (t : ℚ) (ha : a ≤ M) (hb : b ≤ M)
    (h0 : 0 ≤ t) (h1 : t ≤ 1) : lerpQ a b t ≤ (M : ℚ) := by
  rw [lerpQ_convex]
  have ha' : (a : ℚ) ≤ (M : ℚ) := by exact_mod_cast ha
  have hb' : (b : ℚ) ≤ (M : ℚ) := by exact_mod_cast hb
  nlinarith

theorem lerpQ_mono (a b : ℕ) (hab : a ≤ b) {t t2 : ℚ} (h : t ≤ t2) :
    lerpQ a b t ≤ lerpQ a b t2 := by
  unfold lerpQ
  have hba : (0 : ℚ) ≤ (b : ℚ) - (a : ℚ) := by
    have : (a : ℚ) ≤ (b : ℚ) := by exact_mod_cast hab
    linarith
  have := mul_le_mul_of_nonneg_left h hba
  linarith

theorem lerpQ_anti (a b : ℕ) (hba : b ≤ a) {t t2 : ℚ} (h : t ≤ t2) :
    lerpQ a b t2 ≤ lerpQ a b t := by
  unfold lerpQ
  have hab : (b : ℚ) - (a : ℚ) ≤ 0 := by
    have : (b : ℚ) ≤ (a : ℚ) := by exact_mod_cast hba
    linarith
  have := mul_le_mul_of_nonpos_left h hab
  linarith

theorem ratio_nonneg (x w : ℕ) : (0 : ℚ) ≤ (x : ℚ) / (w : ℚ) :=
  div_nonneg (Nat.cast_nonneg x) (Nat.cast_nonneg w)

theorem ratio_le_one (x w : ℕ) (hx : x ≤ w) : (x : ℚ) / (w : ℚ) ≤ 1 := by
  rcases Nat.eq_zero_or_pos w with hw | hw
  · subst hw
    simp
  · rw [div_le_one (by exact_mod_cast hw)]
    exact_mod_cast hx

theorem gradChannel_zero (a b w : ℕ) : gradChannel a b 0 w = a := by
  unfold gradChannel
  simp

theorem gradChannel_le (a b x w : ℕ) (ha : a ≤ 255) (hb : b ≤ 255)
    (hx : x ≤ w) : gradChannel a b x w ≤ 255 := by
  rw [gradChannel_eq_floor]
  rw [Int.toNat_le]
  have hle : lerpQ a b ((x : ℚ) / (w : ℚ)) ≤ ((255 : ℕ) : ℚ) :=
    lerpQ_le a b 255 _ ha hb (ratio_nonneg x w) (ratio_le_one x w hx)
  have := Int.floor_le_floor hle
  rwa [Int.floor_natCast] at this

theorem gradChannel_mono (a b x x2 w : ℕ) (hab : a ≤ b) (hx : x ≤ x2) :
    gradChannel a b x w ≤ gradChannel a b x2 w := by
  rw [gradChannel_eq_floor, gradChannel_eq_floor]
  apply Int.toNat_le_toNat
  apply Int.floor_le_floor
  apply lerpQ_mono a b hab
  rcases Nat.eq_zero_or_pos w with hw | hw
  · subst hw
    simp
  · have hwQ : (0 : ℚ) < (w : ℚ) := by exact_mod_cast hw
    rw [div_le_div_iff_of_pos_right hwQ]
    exact_mod_cast hx

theorem gradChannel_anti (a b x x2 w : ℕ) (hba : b ≤ a) (hx : x ≤ x2) :
    gradChannel a b x2 w ≤ gradChannel a b x w := by
  rw [gradChannel_eq_floor, gradChannel_eq_floor]
  apply Int.toNat_le_toNat
  apply Int.floor_le_floor
  apply lerpQ_anti a b hba
  rcases Nat.eq_zero_or_pos w with hw | hw
  · subst hw
    simp
  · have hwQ : (0 : ℚ) < (w : ℚ) := by exact_mod_cast hw
    rw [div_le_div_iff_of_pos_right hwQ]
    exact_mod_cast hx

/-- Channel value at the last column: within one unit of the end color
channel b, provided the channel distance is below the width. -/
theorem gradChannel_last (a b w : ℕ) (hw : 0 < w) (h1 : a < b + w)
    (h2 : b < a + w) :
    b - 1 ≤ gradChannel a b (w - 1) w ∧ gradChannel a b (w - 1) w ≤ b := by
  rw [gradChannel_eq_floor]
  have hwQ : (0 : ℚ) < (w : ℚ) := by exact_mod_cast hw
  have hcast : ((w - 1 : ℕ) : ℚ) = (w : ℚ) - 1 := by
    have h1w : (1 : ℕ) ≤ w := hw
    push_cast [h1w]
    ring
  have hv : lerpQ a b (((w - 1 : ℕ) : ℚ) / (w : ℚ))
      = (b : ℚ) - ((b : ℚ) - (a : ℚ)) / (w : ℚ) := by
    unfold lerpQ
    rw [hcast]
    field_simp
    ring
  have hub : ((b : ℚ) - (a : ℚ)) / (w : ℚ) < 1 := by
    rw [div_lt_one hwQ]
    have : (b : ℚ) < (a : ℚ) + (w : ℚ) := by exact_mod_cast h2
    linarith
  have hlb : -1 < ((b : ℚ) - (a : ℚ)) / (w : ℚ) := by
    have h3 : ((a : ℚ) - (b : ℚ)) / (w : ℚ) < 1 := by
      rw [div_lt_one hwQ]
      have : (a : ℚ) < (b : ℚ) + (w : ℚ) := by exact_mod_cast h1
      linarith
    have h4 : ((a : ℚ) - (b : ℚ)) / (w : ℚ)
        = -(((b : ℚ) - (a : ℚ)) / (w : ℚ)) := by ring
    linarith [h4 ▸ h3]
  have hfl : (b : ℤ) - 1 ≤ ⌊lerpQ a b (((w - 1 : ℕ) : ℚ) / (w : ℚ))⌋ := by
    apply Int.le_floor.mpr
    rw [hv]
    push_cast
    linarith
  have hfu : ⌊lerpQ a b (((w - 1 : ℕ) : ℚ) / (w : ℚ))⌋ ≤ (b : ℤ) := by
    have hlt : lerpQ a b (((w - 1 : ℕ) : ℚ) / (w : ℚ)) < (((b : ℤ) + 1 : ℤ) : ℚ) := by
      rw [hv]
      push_cast
      linarith
    have := Int.floor_lt.mpr hlt
    omega
  omega

/-! ### Well-formedness of the assembled image -/

/-- A canvas of the fixed dimensions whose pixels all fit in a byte. -/
def Good (img : Image) : Prop :=
  img.width = WIDTH ∧ img.height = HEIGHT ∧ ∀ x y, inRange (img.pix x y)

/-- A text renderer behaves like a PIL draw call: it keeps the canvas
dimensions and writes byte-valued pixels. -/
def TextOk (tr : TextRenderer) : Prop :=
  ∀ s cfg img, (tr s cfg img).width = img.width ∧
    (tr s cfg img).height = img.height ∧
    ((∀ x y, inRange (img.pix x y)) → ∀ x y, inRange ((tr s cfg img).pix x y))

/-- The trivial text renderer (text drawing switched off). -/
def trId : TextRenderer := fun _ _ img => img

theorem trId_ok : TextOk trId := fun _ _ _ => ⟨rfl, rfl, fun h => h⟩

theorem good_blank : Good (blankImage WIDTH HEIGHT) :=
  ⟨rfl, rfl, fun _ _ => by constructor <;> simp [blankImage]⟩

theorem good_gradientStep (tr : TextRenderer) (cfg : FormatSpec) (img : Image) :
    Good (applyStep tr cfg img DrawStep.gradient) := by
  show Good ((create_gradient WIDTH HEIGHT cfg.gradient1 cfg.gradient2
    Direction.horizontal).getD (blankImage WIDTH HEIGHT))
  rcases hg1 : hex_to_rgb cfg.gradient1 with _ | a
  · rw [show create_gradient WIDTH HEIGHT cfg.gradient1 cfg.gradient2
        Direction.horizontal = none by unfold create_gradient; rw [hg1]]
    exact good_blank
  rcases hg2 : hex_to_rgb cfg.gradient2 with _ | b
  · rw [show create_gradient WIDTH HEIGHT cfg.gradient1 cfg.gradient2
        Direction.horizontal = none by unfold create_gradient; rw [hg1, hg2]]
    exact good_blank
  obtain ⟨img2, himg2, hw, hh, hpix⟩ :=
    create_gradient_eq WIDTH HEIGHT cfg.gradient1 cfg.gradient2 a b hg1 hg2
  rw [himg2]
  simp only [Option.getD_some]
  refine ⟨hw, hh, fun x y => ?_⟩
  rw [hpix]
  obtain ⟨ha1, ha2, ha3⟩ := hex_to_rgb_inRange _ _ hg1
  obtain ⟨hb1, hb2, hb3⟩ := hex_to_rgb_inRange _ _ hg2
  by_cases hx : x < WIDTH
  · simp only [hx, if_true]
    exact ⟨gradChannel_le _ _ _ _ ha1 hb1 hx.le,
      gradChannel_le _ _ _ _ ha2 hb2 hx.le, gradChannel_le _ _ _ _ ha3 hb3 hx.le⟩
  · simp only [hx, if_false]
    decide

theorem good_decorate (img : Image) (h : Good img) :
    Good (decorate WIDTH HEIGHT img) := by
  obtain ⟨hw, hh, hp⟩ := h
  refine ⟨hw, hh, fun x y => ?_⟩
  unfold decorate
  dsimp only
  split
  · decide
  · exact hp x y

theorem darkChannel_le (c : ℕ) (hc : c ≤ 255) : darkChannel c ≤ 255 := by
  unfold darkChannel
  calc (c * 195 + 127) / 255 ≤ 49852 / 255 := Nat.div_le_div_right (by omega)
    _ ≤ 255 := by norm_num

theorem good_darken (img : Image) (h : Good img) : Good (darken img) := by
  obtain ⟨hw, hh, hp⟩ := h
  refine ⟨hw, hh, fun x y => ?_⟩
  obtain ⟨h1, h2, h3⟩ := hp x y
  exact ⟨darkChannel_le _ h1, darkChannel_le _ h2, darkChannel_le _ h3⟩

theorem good_accents (img : Image) (h : Good img) : Good (drawAccents img) := by
  obtain ⟨hw, hh, hp⟩ := h
  refine ⟨hw, hh, fun x y => ?_⟩
  unfold drawAccents
  dsimp only
  split
  · decide
  · exact hp x y

theorem good_text (tr : TextRenderer) (htr : TextOk tr) (s : TextSlot)
    (cfg : FormatSpec) (img : Image) (h : Good img) : Good (tr s cfg img) := by
  obtain ⟨hw, hh, hp⟩ := h
  obtain ⟨tw, th, tp⟩ := htr s cfg img
  exact ⟨tw.trans hw, th.trans hh, tp hp⟩

/-- The assembled image has the fixed dimensions and byte pixels, for
every text renderer that behaves like a draw call. -/
theorem create_og_image_good (tr : TextRenderer) (htr : TextOk tr)
    (cfg : FormatSpec) : Good (create_og_image tr cfg) := by
  unfold create_og_image ogSteps
  simp only [List.foldl_cons, List.foldl_nil]
  apply good_accents
  apply good_text tr htr
  apply good_text tr htr
  apply good_text tr htr
  apply good_text tr htr
  apply good_text tr htr
  show Good (darken (decorate WIDTH HEIGHT _))
  apply good_darken
  apply good_decorate
  exact good_gradientStep tr cfg (blankImage WIDTH HEIGHT)

/-! ### Lemmas about the batch loop -/

theorem batchRun_ok {E A : Type} (render : String → Except E A) (g : String → A) :
    ∀ L : List String, (∀ k ∈ L, render k = Except.ok (g k)) →
      batchRun render L = (L, Except.ok (L.map g)) := by
  intro L
  induction L with
  | nil => intro _; rfl
  | cons k ks ih =>
    intro h
    have hk : render k = Except.ok (g k) := h k (List.mem_cons_self k ks)
    have hks := ih fun k2 hk2 => h k2 (List.mem_cons_of_mem _ hk2)
    simp only [batchRun, hk, hks, List.map_cons]

theorem batchRun_err {E A : Type} (render : String → Except E A) (e : E) :
    ∀ (pre : List String) (k : String) (rest : List String),
      (∀ k2 ∈ pre, ∃ p, render k2 = Except.ok p) →
      render k = Except.error e →
      batchRun render (pre ++ k :: rest) = (pre ++ [k], Except.error e) := by
  intro pre
  induction pre with
  | nil =>
    intro k rest _ hk
    simp only [List.nil_append, batchRun, hk]
  | cons q pre ih =>
    intro k rest hpre hk
    obtain ⟨p, hp⟩ := hpre q (List.mem_cons_self q pre)
    have hrec := ih k rest (fun k2 h2 => hpre k2 (List.mem_cons_of_mem _ h2)) hk
    simp only [List.cons_append, batchRun, hp]
    rw [show pre.append (k :: rest) = pre ++ k :: rest from rfl, hrec]

/-! ### The claims -/

/-- C2: for every width W > 0, height H > 0 and parsed start and end
colors, the horizontal gradient is a pure function whose pixel at every
column x < W has each channel equal to the floor of the linear
interpolation start + (end - start) * (x / W), the same for every row of
the column. -/
theorem claim_C2 (W H : ℕ) (s1 s2 : String) (a b : Rgb) (hW : 0 < W)
    (hH : 0 < H) (h1 : hex_to_rgb s1 = some a) (h2 : hex_to_rgb s2 = some b) :
    ∃ img, create_gradient W H s1 s2 Direction.horizontal = some img ∧
      (∀ x, x < W → ∀ y, img.pix x y = gradColor a b x W) ∧
      (∀ x, gradColor a b x W =
        ((⌊lerpQ a.1 b.1 ((x : ℚ) / (W : ℚ))⌋).toNat,
         (⌊lerpQ a.2.1 b.2.1 ((x : ℚ) / (W : ℚ))⌋).toNat,
         (⌊lerpQ a.2.2 b.2.2 ((x : ℚ) / (W : ℚ))⌋).toNat)) ∧
      (∀ x y y2, img.pix x y = img.pix x y2) := by
  obtain ⟨img, himg, _, _, hpix⟩ := create_gradient_eq W H s1 s2 a b h1 h2
  refine ⟨img, himg, fun x hx y => by rw [hpix, if_pos hx], fun x => ?_,
    fun x y y2 => by rw [hpix, hpix]⟩
  unfold gradColor
  rw [gradChannel_eq_floor, gradChannel_eq_floor, gradChannel_eq_floor]

/-- Witness for C2 at a concrete gradient: width 4, black to white,
column 1 is the floor of 255 / 4 on every channel. -/
theorem claim_C2_witness :
    ∃ img, create_gradient 4 2 ("#000000") ("#FFFFFF") Direction.horizontal
        = some img ∧ img.pix 1 0 = (63, 63, 63) := by
  obtain ⟨img, himg, hpx, _, _⟩ := claim_C2 4 2 ("#000000") ("#FFFFFF")
    (0, 0, 0) (255, 255, 255) (by decide) (by decide) (by decide) (by decide)
  refine ⟨img, himg, ?_⟩
  rw [hpx 1 (by decide) 0]
  decide

/-- C3 counterexample: over width 2 from black (#000000) to white
(#FFFFFF), the pixel at the last column 1 is (127,127,127), which is 128
units away from the end color channel 255 — not within rounding of it. -/
theorem claim_C3_cex :
    (create_gradient 2 2 ("#000000") ("#FFFFFF") Direction.horizontal).map
        (fun img => img.pix 1 0) = some (127, 127, 127) ∧
    255 - 127 = 128 ∧ 1 < 128 := by
  refine ⟨by decide, by decide, by decide⟩

/-- C3 (amended): the pixel at column 0 equals the start color exactly;
each channel is monotone along the columns, non-decreasing when the
start channel is at most the end channel and non-increasing otherwise;
and the pixel at column W-1 is within one unit of the end color per
channel provided the channel distance is smaller than W (as at the
script width 1200, where channels are at most 255). -/
theorem claim_C3_amended (W H : ℕ) (s1 s2 : String) (a b : Rgb) (img : Image)
    (hW : 0 < W) (h1 : hex_to_rgb s1 = some a) (h2 : hex_to_rgb s2 = some b)
    (himg : create_gradient W H s1 s2 Direction.horizontal = some img) :
    (∀ y, img.pix 0 y = a) ∧
    (∀ x x2 y, x ≤ x2 → x2 < W →
      (a.1 ≤ b.1 → (img.pix x y).1 ≤ (img.pix x2 y).1) ∧
      (b.1 ≤ a.1 → (img.pix x2 y).1 ≤ (img.pix x y).1) ∧
      (a.2.1 ≤ b.2.1 → (img.pix x y).2.1 ≤ (img.pix x2 y).2.1) ∧
      (b.2.1 ≤ a.2.1 → (img.pix x2 y).2.1 ≤ (img.pix x y).2.1) ∧
      (a.2.2 ≤ b.2.2 → (img.pix x y).2.2 ≤ (img.pix x2 y).2.2) ∧
      (b.2.2 ≤ a.2.2 → (img.pix x2 y).2.2 ≤ (img.pix x y).2.2)) ∧
    (∀ y,
      (a.1 < b.1 + W → b.1 < a.1 + W →
        b.1 - 1 ≤ (img.pix (W - 1) y).1 ∧ (img.pix (W - 1) y).1 ≤ b.1) ∧
      (a.2.1 < b.2.1 + W → b.2.1 < a.2.1 + W →
        b.2.1 - 1 ≤ (img.pix (W - 1) y).2.1 ∧ (img.pix (W - 1) y).2.1 ≤ b.2.1) ∧
      (a.2.2 < b.2.2 + W → b.2.2 < a.2.2 + W →
        b.2.2 - 1 ≤ (img.pix (W - 1) y).2.2 ∧ (img.pix (W - 1) y).2.2 ≤ b.2.2)) := by
  obtain ⟨img2, he, _, _, hpix⟩ := create_gradient_eq W H s1 s2 a b h1 h2
  have himg2 : img2 = img := Option.some.inj (he.symm.trans himg)
  subst himg2
  refine ⟨fun y => ?_, fun x x2 y hx hx2 => ?_, fun y => ?_⟩
  · rw [hpix, if_pos hW]
    unfold gradColor
    rw [gradChannel_zero, gradChannel_zero, gradChannel_zero]
  · rw [hpix x y, hpix x2 y, if_pos (lt_of_le_of_lt hx hx2), if_pos hx2]
    unfold gradColor
    dsimp only
    exact ⟨fun h => gradChannel_mono _ _ _ _ _ h hx,
      fun h => gradChannel_anti _ _ _ _ _ h hx,
      fun h => gradChannel_mono _ _ _ _ _ h hx,
      fun h => gradChannel_anti _ _ _ _ _ h hx,
      fun h => gradChannel_mono _ _ _ _ _ h hx,
      fun h => gradChannel_anti _ _ _ _ _ h hx⟩
  · rw [hpix, if_pos (by omega : W - 1 < W)]
    unfold gradColor
    dsimp only
    exact ⟨fun ha hb => gradChannel_last _ _ _ hW ha hb,
      fun ha hb => gradChannel_last _ _ _ hW ha hb,
      fun ha hb => gradChannel_last _ _ _ hW ha hb⟩

/-- Witness for the amended C3: width 4 from #000000 to #030303, column
0 is exactly the start color, and column 3 lands within one unit of the
end channel 3. -/
theorem claim_C3_witness :
    ∃ img, create_gradient 4 2 ("#000000") ("#030303") Direction.horizontal
        = some img ∧ img.pix 0 0 = (0, 0, 0) ∧
      2 ≤ (img.pix 3 0).1 ∧ (img.pix 3 0).1 ≤ 3 := by
  rcases hcg : create_gradient 4 2 ("#000000") ("#030303") Direction.horizontal
    with _ | img
  · have hsome : (create_gradient 4 2 ("#000000") ("#030303")
        Direction.horizontal).isSome = true := rfl
    rw [hcg] at hsome
    exact absurd hsome (by decide)
  · obtain ⟨hz, _, hlast⟩ := claim_C3_amended 4 2 ("#000000") ("#030303")
      (0, 0, 0) (3, 3, 3) img (by decide) (by decide) (by decide) hcg
    have hl := (hlast 0).1 (by decide) (by decide)
    exact ⟨img, rfl, hz 0, hl.1, hl.2⟩

/-- A valid 7-character hash-RRGGBB string: one hash then six hex
digits. -/
def validRRGGBB (s : String) : Bool :=
  match s.data with
  | '#' :: cs => cs.length == 6 && cs.all fun c => (hexVal c).isSome
  | _ => false

theorem hexVal_hexDigit (d : ℕ) (hd : d ≤ 15) : hexVal (hexDigit d) = some d := by
  have h : ∀ i : Fin 16, hexVal (hexDigit i) = some i := by decide
  exact h ⟨d, by omega⟩

theorem hexDigit_ne_hash (d : ℕ) (hd : d ≤ 15) : (hexDigit d == '#') = false := by
  have h : ∀ i : Fin 16, (hexDigit (i : ℕ) == '#') = false := by decide
  exact h ⟨d, by omega⟩

/-- C4: on every valid hash-RRGGBB input the parser returns a triple of
byte channels, and parsing the standard hex rendering of any byte triple
returns that triple. -/
theorem claim_C4 :
    (∀ s : String, validRRGGBB s = true →
      ∃ c : Rgb, hex_to_rgb s = some c ∧ inRange c) ∧
    (∀ r g b : ℕ, r ≤ 255 → g ≤ 255 → b ≤ 255 →
      hex_to_rgb (toHex r g b) = some (r, g, b)) := by
  constructor
  · intro s hv
    unfold validRRGGBB at hv
    split at hv
    case h_2 => exact absurd hv (by simp)
    case h_1 cs hdata =>
      simp only [Bool.and_eq_true, beq_iff_eq, List.all_eq_true] at hv
      obtain ⟨hlen, hall⟩ := hv
      rcases cs with _ | ⟨c1, _ | ⟨c2, _ | ⟨c3, _ | ⟨c4, _ | ⟨c5, _ | ⟨c6, _ | ⟨c7, cs⟩⟩⟩⟩⟩⟩⟩ <;>
        simp only [List.length] at hlen <;> try omega
      have hs1 := hall c1 (by simp)
      have hs2 := hall c2 (by simp)
      have hs3 := hall c3 (by simp)
      have hs4 := hall c4 (by simp)
      have hs5 := hall c5 (by simp)
      have hs6 := hall c6 (by simp)
      rcases h1 : hexVal c1 with _ | v1
      · rw [h1] at hs1
        exact absurd hs1 (by simp)
      rcases h2 : hexVal c2 with _ | v2
      · rw [h2] at hs2
        exact absurd hs2 (by simp)
      rcases h3 : hexVal c3 with _ | v3
      · rw [h3] at hs3
        exact absurd hs3 (by simp)
      rcases h4 : hexVal c4 with _ | v4
      · rw [h4] at hs4
        exact absurd hs4 (by simp)
      rcases h5 : hexVal c5 with _ | v5
      · rw [h5] at hs5
        exact absurd hs5 (by simp)
      rcases h6 : hexVal c6 with _ | v6
      · rw [h6] at hs6
        exact absurd hs6 (by simp)
      have hc1 : (c1 == '#') = false := by
        rcases hbe : c1 == '#' with _ | _
        · rfl
        · have hch : c1 = '#' := eq_of_beq hbe
          rw [hch] at h1
          have hnone : (none : Option ℕ) = some v1 :=
            (show hexVal '#' = none from rfl).symm.trans h1
          simp at hnone
      have hdrop : s.data.dropWhile (· == '#') = c1 :: c2 :: c3 :: c4 :: c5 :: c6 :: [] := by
        rw [hdata]
        simp [List.dropWhile, hc1]
      refine ⟨(16 * v1 + v2, 16 * v3 + v4, 16 * v5 + v6),
        hex_to_rgb_parses s c1 c2 c3 c4 c5 c6 [] v1 v2 v3 v4 v5 v6 hdrop h1 h2 h3 h4 h5 h6,
        ?_, ?_, ?_⟩
      · show 16 * v1 + v2 ≤ 255
        have := hexVal_le _ _ h1
        have := hexVal_le _ _ h2
        omega
      · show 16 * v3 + v4 ≤ 255
        have := hexVal_le _ _ h3
        have := hexVal_le _ _ h4
        omega
      · show 16 * v5 + v6 ≤ 255
        have := hexVal_le _ _ h5
        have := hexVal_le _ _ h6
        omega
  · intro r g b hr hg hb
    have hdrop : (toHex r g b).data.dropWhile (· == '#')
        = hexDigit (r / 16) :: hexDigit (r % 16) :: hexDigit (g / 16)
          :: hexDigit (g % 16) :: hexDigit (b / 16) :: hexDigit (b % 16) :: [] := by
      show List.dropWhile (· == '#') ('#' :: _) = _
      rw [List.dropWhile_cons_of_pos (by decide)]
      simp only [hexByteChars, List.cons_append, List.nil_append]
      rw [List.dropWhile_cons_of_neg (by simp [hexDigit_ne_hash (r / 16) (by omega)])]
    have h := hex_to_rgb_parses (toHex r g b) _ _ _ _ _ _ []
      (r / 16) (r % 16) (g / 16) (g % 16) (b / 16) (b % 16) hdrop
      (hexVal_hexDigit _ (by omega)) (hexVal_hexDigit _ (by omega))
      (hexVal_hexDigit _ (by omega)) (hexVal_hexDigit _ (by omega))
      (hexVal_hexDigit _ (by omega)) (hexVal_hexDigit _ (by omega))
    rwa [Nat.div_add_mod, Nat.div_add_mod, Nat.div_add_mod] at h

/-- Witness for C4: the primary blue of the script parses in range, and
a concrete byte triple round-trips through the formatter. -/
theorem claim_C4_witness :
    (∃ c : Rgb, hex_to_rgb ("#2563EB") = some c ∧ inRange c) ∧
    hex_to_rgb (toHex 18 52 86) = some (18, 52, 86) :=
  ⟨claim_C4.1 ("#2563EB") (by decide), claim_C4.2 18 52 86 (by omega) (by omega) (by omega)⟩

/-- C10: the parser accepts strictly more than the 7-character contract:
any string whose content after stripping every leading hash consists of
six hex digits (lowercase included, bare or with several hashes) parses
to the corresponding triple. -/
theorem claim_C10 (s : String) (c1 c2 c3 c4 c5 c6 : Char)
    (v1 v2 v3 v4 v5 v6 : ℕ)
    (hdrop : s.data.dropWhile (· == '#') = [c1, c2, c3, c4, c5, c6])
    (h1 : hexVal c1 = some v1) (h2 : hexVal c2 = some v2)
    (h3 : hexVal c3 = some v3) (h4 : hexVal c4 = some v4)
    (h5 : hexVal c5 = some v5) (h6 : hexVal c6 = some v6) :
    hex_to_rgb s = some (16 * v1 + v2, 16 * v3 + v4, 16 * v5 + v6) :=
  hex_to_rgb_parses s c1 c2 c3 c4 c5 c6 [] v1 v2 v3 v4 v5 v6 hdrop
    h1 h2 h3 h4 h5 h6

/-- Witness for C10: a double hash and lowercase digits, both outside
the 7-character contract, parse fine. -/
theorem claim_C10_witness : hex_to_rgb ("##ff00aa") = some (255, 0, 170) := by
  have h := claim_C10 ("##ff00aa") 'f' 'f' '0' '0' 'a' 'a' 15 15 0 0 10 10
    (by decide) rfl rfl rfl rfl rfl rfl
  simpa using h

/-- C7: font resolution tries DejaVu then Liberation (variant per the
bold flag), returns the first candidate that loads, and falls back to
the built-in default when none loads; the outcome is always one of
these, so a missing font file never surfaces as an error. -/
theorem claim_C7 (env : String → Bool) (size : ℕ) (bold : Bool) :
    (env (dejavuPath bold) = true →
      get_font env size bold = Font.truetype (dejavuPath bold) size) ∧
    (env (dejavuPath bold) = false → env (liberationPath bold) = true →
      get_font env size bold = Font.truetype (liberationPath bold) size) ∧
    (env (dejavuPath bold) = false → env (liberationPath bold) = false →
      get_font env size bold = Font.builtin) := by
  refine ⟨fun h1 => ?_, fun h1 h2 => ?_, fun h1 h2 => ?_⟩ <;>
    simp [get_font, fontCandidates, tryFonts, h1, *]

/-- Witness for C7: with no loadable font the built-in default is
returned, and with only DejaVu regular loadable it is returned. -/
theorem claim_C7_witness :
    get_font (fun _ => false) 72 true = Font.builtin ∧
    get_font (fun p => p == dejavuPath false) 28 false
      = Font.truetype (dejavuPath false) 28 :=
  ⟨(claim_C7 (fun _ => false) 72 true).2.2 rfl rfl,
   (claim_C7 (fun p => p == dejavuPath false) 28 false).1 (by simp)⟩

/-- C9: the batch driver walks the format keys in table order; when
every generation succeeds it collects one output per entry (five in
total), and when the generation of one key fails every earlier key was
attempted, that key ends the run with the error, and no later key is
attempted. -/
theorem claim_C9 (E A : Type) (render : String → Except E A) :
    (∀ g : String → A, (∀ k ∈ formatKeys, render k = Except.ok (g k)) →
      batchRun render formatKeys = (formatKeys, Except.ok (formatKeys.map g)) ∧
      (formatKeys.map g).length = 5) ∧
    (∀ (pre : List String) (k : String) (post : List String) (e : E),
      formatKeys = pre ++ k :: post →
      (∀ k2 ∈ pre, ∃ p, render k2 = Except.ok p) →
      render k = Except.error e →
      batchRun render formatKeys = (pre ++ [k], Except.error e)) := by
  constructor
  · intro g hg
    exact ⟨batchRun_ok render g formatKeys hg, by simp [formatKeys, FORMATS]⟩
  · intro pre k post e hsplit hpre hk
    rw [hsplit]
    exact batchRun_err render e pre k post hpre hk

/-- A renderer that succeeds on every key, for the C9 witness. -/
def renderOkW : String → Except ℕ ℕ := fun _ => Except.ok 0

/-- A renderer that fails on the mexicano key, for the C9 witness. -/
def renderErrW : String → Except ℕ ℕ :=
  fun k => if k == "mexicano" then Except.error 7 else Except.ok 0

/-- Witness for C9: the all-success run returns all five keys in table
order, and a failure on the third key stops the run after exactly the
first three keys. -/
theorem claim_C9_witness :
    batchRun renderOkW formatKeys = (formatKeys, Except.ok [0, 0, 0, 0, 0]) ∧
    batchRun renderErrW formatKeys
      = (["main", "americano", "mexicano"], Except.error 7) := by
  constructor
  · have h := ((claim_C9 ℕ ℕ renderOkW).1 (fun _ => 0) (fun k _ => rfl)).1
    simpa [formatKeys, FORMATS] using h
  · have h := (claim_C9 ℕ ℕ renderErrW).2 ["main", "americano"] "mexicano"
      ["mix", "team"] 7 (by decide) ?_ rfl
    · simpa using h
    · intro k2 h2
      simp only [List.mem_cons, List.not_mem_nil, or_false] at h2
      rcases h2 with h2 | h2 <;> subst h2 <;> exact ⟨0, rfl⟩

/-- C5 counterexample: in the stage list of create_og_image the
decorative elements (index 1) come before the contrast overlay
(index 2), and the corner accents (index 8) come after the first text
(index 3) — the claimed order (overlay before decoratives and accents,
accents before the texts) does not hold. -/
theorem claim_C5_cex :
    stepIdx DrawStep.gradient = 0 ∧ stepIdx DrawStep.decorative = 1 ∧
    stepIdx DrawStep.overlay = 2 ∧
    stepIdx (DrawStep.text TextSlot.icon) = 3 ∧
    stepIdx DrawStep.accents = 8 := by decide

/-- C5 (amended): the stages of create_og_image run in this order:
gradient, decorative dot and line patterns, contrast overlay, the icon,
title, subtitle, tagline and watermark texts, and the corner accents
last. -/
theorem claim_C5_amended :
    stepIdx DrawStep.gradient = 0 ∧ stepIdx DrawStep.decorative = 1 ∧
    stepIdx DrawStep.overlay = 2 ∧
    stepIdx (DrawStep.text TextSlot.icon) = 3 ∧
    stepIdx (DrawStep.text TextSlot.title) = 4 ∧
    stepIdx (DrawStep.text TextSlot.subtitle) = 5 ∧
    stepIdx (DrawStep.text TextSlot.tagline) = 6 ∧
    stepIdx (DrawStep.text TextSlot.watermark) = 7 ∧
    stepIdx DrawStep.accents = 8 ∧ ogSteps.length = 9 := by decide

/-- C6 as a code defect: the eight corner accent segments have the
claimed geometry (axis-aligned, spanning 80 pixels, 4 thick), but they
are not translucent in the saved image: the accent pixel (40, 0) of the
finished canvas is opaque white (255, 255, 255) for every text renderer
and for either gradient (main and team differ), so nothing of the
underlying content shows through. -/
theorem claim_C6_bug :
    accentSegs.length = 8 ∧
    (∀ s ∈ accentSegs, s.w = 4 ∧
      ((s.y0 = s.y1 ∧ max s.x0 s.x1 - min s.x0 s.x1 = 80) ∨
       (s.x0 = s.x1 ∧ max s.y0 s.y1 - min s.y0 s.y1 = 80))) ∧
    (∀ tr : TextRenderer,
      (create_og_image tr mainCfg).pix 40 0 = (255, 255, 255) ∧
      (create_og_image tr teamCfg).pix 40 0 = (255, 255, 255)) := by
  refine ⟨by decide, by decide, fun tr => ?_⟩
  constructor <;>
  · simp only [create_og_image, ogSteps, List.foldl_cons, List.foldl_nil,
      applyStep, drawAccents]
    rw [if_pos (show inAccents 40 0 = true by decide)]

/-- Witness for C6 at concrete inputs: eight segments, the first one 4
thick, and the accent pixel of the main image with text drawing
switched off is opaque white. -/
theorem claim_C6_witness :
    accentSegs.length = 8 ∧ (⟨0, 0, 80, 0, 4⟩ : Seg).w = 4 ∧
    (create_og_image trId mainCfg).pix 40 0 = (255, 255, 255) :=
  ⟨claim_C6_bug.1, (claim_C6_bug.2.1 ⟨0, 0, 80, 0, 4⟩ (by decide)).1,
   (claim_C6_bug.2.2 trId).1⟩

/-- C8: the pipeline is deterministic: the whole batch output is a
function of the text renderer alone (two runs with the same renderer and
the same static table agree), and the decorative dot parameters and
corner accent segments are the same fixed constants on every run. -/
theorem claim_C8 :
    (∀ tr tr2 : TextRenderer,
      (∀ s cfg img, tr s cfg img = tr2 s cfg img) → mainRun tr = mainRun tr2) ∧
    (List.range 20).map (fun i => dotSpec i WIDTH HEIGHT) =
      [(50, 0, 3), (200, 80, 4), (350, 160, 5), (500, 240, 3), (650, 320, 4),
       (800, 400, 5), (950, 480, 3), (1100, 560, 4), (50, 10, 5), (200, 90, 3),
       (350, 170, 4), (500, 250, 5), (650, 330, 3), (800, 410, 4),
       (950, 490, 5), (1100, 570, 3), (50, 20, 4), (200, 100, 5),
       (350, 180, 3), (500, 260, 4)] ∧
    accentSegs =
      [⟨0, 0, 80, 0, 4⟩, ⟨0, 0, 0, 80, 4⟩, ⟨1120, 0, 1200, 0, 4⟩,
       ⟨1199, 0, 1199, 80, 4⟩, ⟨0, 629, 80, 629, 4⟩, ⟨0, 550, 0, 630, 4⟩,
       ⟨1120, 629, 1200, 629, 4⟩, ⟨1199, 550, 1199, 630, 4⟩] := by
  refine ⟨fun tr tr2 h => ?_, by decide, by decide⟩
  have heq : tr = tr2 := funext fun s => funext fun cfg => funext fun img => h s cfg img
  rw [heq]

/-- Witness for C8: two runs with the identity renderer agree. -/
theorem claim_C8_witness : mainRun trId = mainRun trId :=
  claim_C8.1 trId trId fun _ _ _ => rfl

/-- C1: the batch produces exactly five images whose filenames are the
five fixed names in table order, each 1200 by 630 with byte pixels
(24-bit RGB), and the config-to-filename mapping of the table holds. -/
theorem claim_C1 (tr : TextRenderer) (htr : TextOk tr) :
    (mainRun tr).map Prod.fst =
      ["og-image.png", "og-image-americano.png", "og-image-mexicano.png",
       "og-image-mix.png", "og-image-team.png"] ∧
    (mainRun tr).length = 5 ∧
    (∀ e ∈ mainRun tr, e.2.width = 1200 ∧ e.2.height = 630 ∧
      ∀ x y, inRange (e.2.pix x y)) ∧
    (List.lookup ("americano") FORMATS).map FormatSpec.filename
      = some ("og-image-americano.png") ∧
    (List.lookup ("mexicano") FORMATS).map FormatSpec.filename
      = some ("og-image-mexicano.png") ∧
    (List.lookup ("mix") FORMATS).map FormatSpec.filename
      = some ("og-image-mix.png") ∧
    (List.lookup ("team") FORMATS).map FormatSpec.filename
      = some ("og-image-team.png") ∧
    (List.lookup ("main") FORMATS).map FormatSpec.filename
      = some ("og-image.png") := by
  have hg : ∀ cfg, (create_og_image tr cfg).width = 1200 ∧
      (create_og_image tr cfg).height = 630 ∧
      ∀ x y, inRange ((create_og_image tr cfg).pix x y) :=
    fun cfg => create_og_image_good tr htr cfg
  refine ⟨rfl, rfl, ?_, by decide, by decide, by decide, by decide, by decide⟩
  intro e he
  simp only [mainRun, FORMATS, List.map_cons, List.map_nil, List.mem_cons,
    List.not_mem_nil, or_false] at he
  rcases he with he | he | he | he | he <;> subst he <;> exact hg _

/-- Witness for C1 with the identity text renderer. -/
theorem claim_C1_witness :
    (mainRun trId).map Prod.fst =
      ["og-image.png", "og-image-americano.png", "og-image-mexicano.png",
       "og-image-mix.png", "og-image-team.png"] ∧
    ∀ e ∈ mainRun trId, e.2.width = 1200 ∧ e.2.height = 630 ∧
      ∀ x y, inRange (e.2.pix x y) := by
  obtain ⟨h1, _, h3, _⟩ := claim_C1 trId trId_ok
  exact ⟨h1, h3⟩

end OgImages
